import Mathlib

/-!
# Diffusion gradient tables (`src/dwi/gradient.h`, `cmd/mrconvert.cpp`)

A shallow embedding of the gradient-table routines of `src/dwi/gradient.h`:
`check_DW_scheme`, `compute_SH2amp_mapping`, `normalise_grad` and
`gen_direction_matrix`, and of the `-prs` option of `cmd/mrconvert.cpp`.

Conventions of the embedding.

* A dense matrix with `m` rows and `n` columns over a scalar type `K` is a
  function `Fin m → Fin n → K`; `rows()` is `m` and `cols()` is `n`.
* A C++ exception is the `error` case of `Except String`.
* C++ `int` values are integers; the one narrowing conversion in the code
  (`(int) grad.rows()`) is kept explicit as `to_int`. The only arithmetic on
  `int` is `lmax -= 2`, which is exact for every `int` but the two lowest.
* Calls of `WARN` are recorded, in sequence, in the result of the function
  that makes them; calls of `INFO` are not warnings and are not recorded.
* Code outside the sources (`Math::SH::LforN`, `Math::SH::init_transform`, the
  singular values of Eigen) enters as parameters: the direction-supported
  maximum order, the mapping built at an order, and the ratio of the largest
  to the smallest singular value of a mapping, a rational number.
* `double` arithmetic is taken over a field `K`, with the library functions
  (`sqrt`, `atan2`, `acos`) passed as parameters, so that every definition is
  executable over `ℚ` and every theorem about real arithmetic is stated at
  `K = ℝ` with the functions of the real numbers.
-/

namespace MR
namespace DWI

/-! ## Data model -/

/-- Modelled from the spec: the image metadata interface (`Header`, declared in
`header.h`, which is not among the sources). It exposes the dimensionality of
the image and its extent along each axis. -/
structure Header where
  /-- The extent of the image along each axis, axis 0 first. -/
  axes : List Int
deriving Repr, DecidableEq

/-- The number of dimensions of the image: `header.ndim()`. -/
def Header.ndim (header : Header) : Nat :=
  header.axes.length

/-- The extent of the image along `axis`: `header.size (axis)`. -/
def Header.size (header : Header) (axis : Nat) : Int :=
  header.axes.getD axis 0

/-- The conversion `(int) x` of a 64-bit row count to a 32-bit `int`: the value
is reduced modulo `2^32` into the range `[-2^31, 2^31)`. -/
def to_int (x : Int) : Int :=
  (x + 2147483648) % 4294967296 - 2147483648

/-! ## `check_DW_scheme` -/

/-- The function `check_DW_scheme` of `gradient.h`: three tests in sequence, each
throwing its own exception. Both arguments are `const` references and the
function returns `void`, so the only outcome is success or the exception. -/
def check_DW_scheme {K : Type} {m n : Nat} (header : Header)
    (_grad : Fin m → Fin n → K) : Except String Unit :=
  if m = 0 then
    .error "no valid diffusion gradient table found"
  else if header.ndim ≠ 4 then
    .error "dwi image should contain 4 dimensions"
  else if header.size 3 ≠ to_int (m : Int) then
    .error "number of studies in base image does not match that in diffusion gradient table"
  else
    .ok ()

/-! ## `compute_SH2amp_mapping` -/

/-- The calls of `WARN` made by `compute_SH2amp_mapping`, one constructor per
call site, carrying the values printed in the message. -/
inductive Warning where
  /-- The text "not enough directions for lmax = ... - dropping down to ...". -/
  | not_enough_directions (lmax : Int) (lmax_from_ndir : Int)
  /-- The text "directions are poorly distributed for lmax = ... (condition number = ...)". -/
  | poorly_distributed (lmax : Int) (cond : ℚ)
  /-- The text "reducing lmax to ... to improve conditioning". -/
  | reducing_lmax (lmax : Int)
deriving DecidableEq, Repr

/-- Whether a warning is the poor-conditioning warning of the loop body. -/
def Warning.is_poorly_distributed : Warning → Bool
  | .poorly_distributed _ _ => true
  | _ => false

/-- What a call of `compute_SH2amp_mapping` leaves behind when it returns: the
matrix it returns, the value of the variable `lmax` at the end, the orders at
which `init_transform` was called (in sequence), and the calls of `WARN` (in
sequence). -/
structure SH2amp (μ : Type) where
  /-- The returned matrix `mapping`. -/
  mapping : μ
  /-- The value of the variable `lmax` when the function returns. -/
  lmax : Int
  /-- The orders at which a candidate mapping was built, first to last. -/
  built : List Int
  /-- The warnings emitted, first to last. -/
  warnings : List Warning
deriving Repr

/-- Lines 201-218 of `gradient.h`: the value of `lmax` taken from the `lmax`
command-line option. `opt` is the value of the option when it was supplied.
The result is the triple `(lmax, lmax_set_from_commandline, warnings)`;
`lmax = -1` is the initial value that stands for "not set". -/
def lmax_from_options (lmax_from_ndir : Int) (lmax_from_command_line : Bool)
    (opt : Option Int) : Except String (Int × Bool × List Warning) :=
  if lmax_from_command_line then
    match opt with
    | some lmax =>
      if Int.tmod lmax 2 ≠ 0 then
        .error "lmax must be an even number"
      else if lmax < 0 then
        .error "lmax must be a non-negative number"
      else if lmax > lmax_from_ndir then
        .ok (lmax_from_ndir, true, [Warning.not_enough_directions lmax lmax_from_ndir])
      else
        .ok (lmax, true, [])
    | none => .ok (-1, false, [])
  else
    .ok (-1, false, [])

/-- Lines 220-224 of `gradient.h`: when `lmax` is still negative it becomes the
lesser of `lmax_from_ndir` and `default_lmax`. -/
def initial_lmax (lmax_from_ndir default_lmax lmax : Int) : Int :=
  if lmax < 0 then
    (if lmax_from_ndir > default_lmax then default_lmax else lmax_from_ndir)
  else
    lmax

/-- Lines 230-240 of `gradient.h`: the `do ... while (lmax >= 0)` loop, entered
with the current `lmax`, the orders built so far and the warnings so far.
`init_transform lmax` is `Math::SH::init_transform (directions, lmax)` and
`ratio mapping` is the ratio of the largest to the smallest singular value of
`mapping`; both belong to code outside the sources and are parameters, total
functions since no step of the loop throws. The recursion is on `lmax`, which
decreases by 2 and stays non-negative. -/
def order_search {μ : Type} (init_transform : Int → μ) (ratio : μ → ℚ)
    (lmax_set_from_commandline : Bool) (lmax : Int) (built : List Int)
    (warnings : List Warning) : SH2amp μ :=
  let mapping := init_transform lmax
  let cond := ratio mapping
  if cond < 10 then
    ⟨mapping, lmax, built ++ [lmax], warnings⟩
  else if cond < 100 ∨ lmax_set_from_commandline = true then
    ⟨mapping, lmax, built ++ [lmax], warnings ++ [Warning.poorly_distributed lmax cond]⟩
  else if 0 ≤ lmax - 2 then
    order_search init_transform ratio lmax_set_from_commandline (lmax - 2)
      (built ++ [lmax]) (warnings ++ [Warning.poorly_distributed lmax cond])
  else
    ⟨mapping, lmax - 2, built ++ [lmax], warnings ++ [Warning.poorly_distributed lmax cond]⟩
termination_by lmax.toNat
decreasing_by omega

/-- Lines 242-243 of `gradient.h`: the closing warning, emitted when the final
`lmax` differs from the one the loop was entered with. -/
def report_reduction {μ : Type} (lmax_prev : Int) (r : SH2amp μ) : SH2amp μ :=
  if lmax_prev ≠ r.lmax then
    { r with warnings := r.warnings ++ [Warning.reducing_lmax r.lmax] }
  else
    r

/-- The function `compute_SH2amp_mapping` of `gradient.h`. `lmax_from_ndir` is
the value of `Math::SH::LforN (directions.rows())` and `opt` the value of the
`lmax` command-line option, when supplied. -/
def compute_SH2amp_mapping {μ : Type} (init_transform : Int → μ) (ratio : μ → ℚ)
    (lmax_from_ndir : Int) (opt : Option Int) (lmax_from_command_line : Bool)
    (default_lmax : Int) : Except String (SH2amp μ) :=
  match lmax_from_options lmax_from_ndir lmax_from_command_line opt with
  | .error e => .error e
  | .ok (lmax, lmax_set_from_commandline, warnings) =>
    let lmax := initial_lmax lmax_from_ndir default_lmax lmax
    .ok (report_reduction lmax
      (order_search init_transform ratio lmax_set_from_commandline lmax [] warnings))

/-- The candidate orders of a search started at `s`: the orders `s`, `s - 2`,
`s - 4`, ... that are not below 0. -/
def is_candidate (s k : Int) : Prop :=
  0 ≤ k ∧ k ≤ s ∧ (s - k) % 2 = 0

instance is_candidate_decidable (s k : Int) : Decidable (is_candidate s k) := by
  unfold is_candidate
  infer_instance

/-- The descending list `s, s - 2, ...` of `len` orders. -/
def orders_from (s : Int) : Nat → List Int
  | 0 => []
  | len + 1 => s :: orders_from (s - 2) len

/-- The poor-conditioning warnings raised at the orders of a list. -/
def conditioning_warnings {μ : Type} (init_transform : Int → μ) (ratio : μ → ℚ)
    (orders : List Int) : List Warning :=
  (orders.filter (fun o => decide (¬ ratio (init_transform o) < 10))).map
    (fun o => Warning.poorly_distributed o (ratio (init_transform o)))

/-! ## `normalise_grad` and `gen_direction_matrix` -/

/-- The expression `row.head<3>().norm()`: the Euclidean norm of the first three
entries of a row, with the square root `sqrt` of the scalar type. -/
def head3_norm {K : Type} [Field K] (sqrt : K → K) {n : Nat} (h : 3 ≤ n)
    (row : Fin n → K) : K :=
  sqrt (row ⟨0, by omega⟩ * row ⟨0, by omega⟩ + row ⟨1, by omega⟩ * row ⟨1, by omega⟩
    + row ⟨2, by omega⟩ * row ⟨2, by omega⟩)

/-- The body of the loop of `normalise_grad` on one row: when the norm of the
first three entries is non-zero, each of them is divided by it. -/
def normalise_row {K : Type} [Field K] [DecidableEq K] (sqrt : K → K) {n : Nat}
    (h : 3 ≤ n) (row : Fin n → K) : Fin n → K :=
  let norm := head3_norm sqrt h row
  if norm ≠ 0 then
    fun j => if j.val < 3 then row j / norm else row j
  else
    row

/-- The table after the first `i` iterations of the loop of `normalise_grad`:
iteration `i` rewrites row `i` in place. -/
def normalise_grad_loop {K : Type} [Field K] [DecidableEq K] (sqrt : K → K)
    {m n : Nat} (h : 3 ≤ n) (grad : Fin m → Fin n → K) : Nat → Fin m → Fin n → K
  | 0 => grad
  | i + 1 => fun r =>
    if r.val = i then normalise_row sqrt h (normalise_grad_loop sqrt h grad i r)
    else normalise_grad_loop sqrt h grad i r

/-- The function `normalise_grad` of `gradient.h`: it throws when the table has
fewer than 3 columns, and otherwise runs the loop over all `m` rows. -/
def normalise_grad {K : Type} [Field K] [DecidableEq K] (sqrt : K → K) {m n : Nat}
    (grad : Fin m → Fin n → K) : Except String (Fin m → Fin n → K) :=
  if h : n < 3 then
    .error "invalid diffusion gradient table dimensions"
  else
    .ok (normalise_grad_loop sqrt (by omega) grad m)

/-- The body of the loop of `gen_direction_matrix` on one table row: the pair
(azimuth, elevation), with the elevation clamped at the poles. -/
def direction_of_row {K : Type} [LinearOrderedField K] (sqrt : K → K) (atan2 : K → K → K)
    (acos : K → K) (pi : K) {n : Nat} (h : 3 ≤ n) (row : Fin n → K) : Fin 2 → K :=
  let z := row ⟨2, by omega⟩ / head3_norm sqrt h row
  fun c =>
    if c.val = 0 then atan2 (row ⟨1, by omega⟩) (row ⟨0, by omega⟩)
    else if z ≥ 1 then 0
    else if z ≤ -1 then pi
    else acos z

/-- The matrix `dirs` after the first `i` iterations of the loop of
`gen_direction_matrix`: iteration `i` writes row `i` from table row `dwi[i]`. -/
def gen_direction_matrix_loop {K : Type} [LinearOrderedField K] (sqrt : K → K)
    (atan2 : K → K → K) (acos : K → K) (pi : K) {m n k : Nat} (h : 3 ≤ n)
    (grad : Fin m → Fin n → K) (dwi : Fin k → Fin m) (dirs : Fin k → Fin 2 → K) :
    Nat → Fin k → Fin 2 → K
  | 0 => dirs
  | i + 1 => fun r =>
    if r.val = i then direction_of_row sqrt atan2 acos pi h (grad (dwi r))
    else gen_direction_matrix_loop sqrt atan2 acos pi h grad dwi dirs i r

/-- The function `gen_direction_matrix` of `gradient.h`. The matrix `dirs` is
allocated with `dwi.size()` rows and 2 columns (its initial content, which the
loop overwrites entirely, is taken as 0) and filled row by row. The code
reads columns 0, 1 and 2 of `grad` without a check, hence `h`. -/
def gen_direction_matrix {K : Type} [LinearOrderedField K] (sqrt : K → K)
    (atan2 : K → K → K) (acos : K → K) (pi : K) {m n k : Nat} (h : 3 ≤ n)
    (grad : Fin m → Fin n → K) (dwi : Fin k → Fin m) : Fin k → Fin 2 → K :=
  gen_direction_matrix_loop sqrt atan2 acos pi h grad dwi (fun _ _ => 0) k

/-! ## The `-prs` option of `mrconvert` (`cmd/mrconvert.cpp`) -/

/-- Lines 103-106 of `mrconvert.cpp`: the body of the loop on one row of
`header.DW_scheme`. The first entry is saved in `tmp`, overwritten by the
second, the second is overwritten by `tmp`, and the third is negated. -/
def prs_flip_row {K : Type} [Neg K] {n : Nat} (h : 3 ≤ n) (row : Fin n → K) : Fin n → K :=
  let tmp := row ⟨0, by omega⟩
  let row := Function.update row ⟨0, by omega⟩ (row ⟨1, by omega⟩)
  let row := Function.update row ⟨1, by omega⟩ tmp
  Function.update row ⟨2, by omega⟩ (- row ⟨2, by omega⟩)

/-- The table `header.DW_scheme` after the first `row` iterations of the loop of
lines 102-107 of `mrconvert.cpp`: iteration `row` rewrites row `row` in place. -/
def prs_flip_loop {K : Type} [Neg K] {m n : Nat} (h : 3 ≤ n)
    (DW_scheme : Fin m → Fin n → K) : Nat → Fin m → Fin n → K
  | 0 => DW_scheme
  | row + 1 => fun r =>
    if r.val = row then prs_flip_row h (prs_flip_loop h DW_scheme row r)
    else prs_flip_loop h DW_scheme row r

/-- Lines 100-108 of `mrconvert.cpp` (in `EXECUTE`): what the `-prs` option does
to `header.DW_scheme`. `prs` tells whether the option was given
(`opt.size()`); the loop runs when it was and the table has rows and columns.
The loop reads and writes columns 0, 1 and 2 without a check, hence `h`. -/
def prs_flip {K : Type} [Neg K] {m n : Nat} (prs : Bool) (h : 3 ≤ n)
    (DW_scheme : Fin m → Fin n → K) : Fin m → Fin n → K :=
  if prs = true ∧ m ≠ 0 ∧ n ≠ 0 then
    prs_flip_loop h DW_scheme m
  else
    DW_scheme

/-! ## General lemmas -/

theorem to_int_of_lt {m : Nat} (hm : m < 2147483648) : to_int (m : Int) = m := by
  unfold to_int
  omega

/-! ## Lemmas on the order search -/


theorem order_search_lt_10 {μ : Type} (init_transform : Int → μ) (ratio : μ → ℚ) (b : Bool) (lmax : Int) (built : List Int) (warnings : List Warning)
    (h : ratio (init_transform lmax) < 10) :
    order_search init_transform ratio b lmax built warnings
      = ⟨init_transform lmax, lmax, built ++ [lmax], warnings⟩ := by
  rw [order_search]
  simp [h]

theorem order_search_accept {μ : Type} (init_transform : Int → μ) (ratio : μ → ℚ) (b : Bool) (lmax : Int) (built : List Int) (warnings : List Warning)
    (h10 : ¬ ratio (init_transform lmax) < 10)
    (h : ratio (init_transform lmax) < 100 ∨ b = true) :
    order_search init_transform ratio b lmax built warnings
      = ⟨init_transform lmax, lmax, built ++ [lmax],
          warnings ++ [Warning.poorly_distributed lmax (ratio (init_transform lmax))]⟩ := by
  rw [order_search]
  simp [h10, h]

theorem order_search_reduce {μ : Type} (init_transform : Int → μ) (ratio : μ → ℚ) (lmax : Int) (built : List Int) (warnings : List Warning)
    (h100 : ¬ ratio (init_transform lmax) < 100) (h : 0 ≤ lmax - 2) :
    order_search init_transform ratio false lmax built warnings
      = order_search init_transform ratio false (lmax - 2) (built ++ [lmax])
          (warnings ++ [Warning.poorly_distributed lmax (ratio (init_transform lmax))]) := by
  have h10 : ¬ ratio (init_transform lmax) < 10 := fun h' => h100 (lt_trans h' (by norm_num))
  rw [order_search]
  simp [h10, h100, h]

theorem order_search_floor {μ : Type} (init_transform : Int → μ) (ratio : μ → ℚ) (lmax : Int) (built : List Int) (warnings : List Warning)
    (h100 : ¬ ratio (init_transform lmax) < 100) (h : ¬ 0 ≤ lmax - 2) :
    order_search init_transform ratio false lmax built warnings
      = ⟨init_transform lmax, lmax - 2, built ++ [lmax],
          warnings ++ [Warning.poorly_distributed lmax (ratio (init_transform lmax))]⟩ := by
  have h10 : ¬ ratio (init_transform lmax) < 10 := fun h' => h100 (lt_trans h' (by norm_num))
  rw [order_search]
  simp [h10, h100, h]
/-- The search without an explicit order, entered at any `lmax`: it builds the
orders `lmax, lmax - 2, ..., lmax - 2 * n` for some `n`, all but the first
non-negative, every one before the last with ratio 100 or more, and it stops
either because the last ratio is below 100 or because the next order would be
negative. -/
theorem order_search_spec {μ : Type} (init_transform : Int → μ) (ratio : μ → ℚ) (lmax : Int) (built : List Int) (warnings : List Warning) :
    ∃ n : Nat,
      (n = 0 ∨ 0 ≤ lmax - 2 * n)
      ∧ (order_search init_transform ratio false lmax built warnings).mapping
          = init_transform (lmax - 2 * n)
      ∧ (order_search init_transform ratio false lmax built warnings).built
          = built ++ orders_from lmax (n + 1)
      ∧ (order_search init_transform ratio false lmax built warnings).warnings
          = warnings ++ conditioning_warnings init_transform ratio (orders_from lmax (n + 1))
      ∧ (∀ j : Nat, j < n → 100 ≤ ratio (init_transform (lmax - 2 * j)))
      ∧ ((ratio (init_transform (lmax - 2 * n)) < 100
            ∧ (order_search init_transform ratio false lmax built warnings).lmax = lmax - 2 * n)
          ∨ (100 ≤ ratio (init_transform (lmax - 2 * n)) ∧ lmax - 2 * n - 2 < 0
            ∧ (order_search init_transform ratio false lmax built warnings).lmax
                = lmax - 2 * n - 2)) := by
  induction lmax, built, warnings using order_search.induct init_transform ratio false with
  | case1 lmax built warnings mapping cond h10 =>
    replace h10 : ratio (init_transform lmax) < 10 := h10
    have h10' := h10
    refine ⟨0, Or.inl rfl, ?_⟩
    have h100 : ratio (init_transform lmax) < 100 := lt_trans h10 (by norm_num)
    rw [order_search_lt_10 init_transform ratio false lmax built warnings h10]
    simp [orders_from, conditioning_warnings, h10, not_le.mpr h10, h100]
  | case2 lmax built warnings mapping cond h10 hacc =>
    replace h10 : ¬ ratio (init_transform lmax) < 10 := h10
    have h100 : ratio (init_transform lmax) < 100 := by simpa using hacc
    refine ⟨0, Or.inl rfl, ?_⟩
    rw [order_search_accept init_transform ratio false lmax built warnings h10 hacc]
    simp [orders_from, conditioning_warnings, h10, not_lt.mp h10, h100]
  | case3 lmax built warnings mapping cond h10 hacc hge ih =>
    replace h10 : ¬ ratio (init_transform lmax) < 10 := h10
    have h100 : ¬ ratio (init_transform lmax) < 100 := by simpa using hacc
    obtain ⟨n, hn0, hmap, hbuilt, hwarn, hall, hend⟩ := ih
    rw [order_search_reduce init_transform ratio lmax built warnings h100 hge]
    have hk : lmax - 2 - 2 * (n : Int) = lmax - 2 * ((n + 1 : Nat) : Int) := by
      push_cast; ring
    refine ⟨n + 1, ?_, ?_, ?_, ?_, ?_, ?_⟩
    · right
      rw [← hk]
      rcases hn0 with hn0 | hn0
      · subst hn0; simpa using hge
      · exact hn0
    · rw [← hk]; exact hmap
    · rw [hbuilt]; simp [orders_from]
    · rw [hwarn]; simp [orders_from, conditioning_warnings, h10, not_lt.mp h10]
    · intro j hj
      cases j with
      | zero => simpa using not_lt.mp h100
      | succ j =>
        have := hall j (by omega)
        have hj' : lmax - 2 - 2 * (j : Int) = lmax - 2 * ((j + 1 : Nat) : Int) := by
          push_cast; ring
        rwa [hj'] at this
    · rw [← hk]; exact hend
  | case4 lmax built warnings mapping cond h10 hacc hlt =>
    replace h10 : ¬ ratio (init_transform lmax) < 10 := h10
    have h100 : ¬ ratio (init_transform lmax) < 100 := by simpa using hacc
    refine ⟨0, Or.inl rfl, ?_⟩
    rw [order_search_floor init_transform ratio lmax built warnings h100 hlt]
    simp [orders_from, conditioning_warnings, h10, not_lt.mp h10]
    exact ⟨not_lt.mp h100, by omega⟩

theorem order_search_fixed {μ : Type} (init_transform : Int → μ) (ratio : μ → ℚ) (lmax : Int) (built : List Int) (warnings : List Warning) :
    order_search init_transform ratio true lmax built warnings
      = ⟨init_transform lmax, lmax, built ++ [lmax],
          warnings ++ conditioning_warnings init_transform ratio [lmax]⟩ := by
  by_cases h10 : ratio (init_transform lmax) < 10
  · rw [order_search_lt_10 init_transform ratio true lmax built warnings h10]
    simp [conditioning_warnings, not_le.mpr h10]
  · rw [order_search_accept init_transform ratio true lmax built warnings h10 (Or.inr rfl)]
    simp [conditioning_warnings, not_lt.mp h10]

theorem lmax_from_options_none (M : Int) (b : Bool) (opt : Option Int)
    (hno : b = false ∨ opt = none) :
    lmax_from_options M b opt = .ok (-1, false, []) := by
  unfold lmax_from_options
  rcases hno with h | h
  · simp [h]
  · subst h
    cases b <;> simp

theorem tmod_two_eq_zero_iff (r : Int) : Int.tmod r 2 = 0 ↔ r % 2 = 0 := by
  rw [← Int.dvd_iff_tmod_eq_zero]
  omega

theorem lmax_from_options_some (M r : Int) (hr0 : 0 ≤ r) (hre : r % 2 = 0) :
    lmax_from_options M true (some r)
      = .ok (min r M, true,
          if r > M then [Warning.not_enough_directions r M] else []) := by
  unfold lmax_from_options
  have h2 : Int.tmod r 2 = 0 := (tmod_two_eq_zero_iff r).mpr hre
  have hneg : ¬ r < 0 := by omega
  by_cases hgt : r > M
  · have : min r M = M := min_eq_right (le_of_lt hgt)
    simp [h2, hneg, hgt, this]
  · have : min r M = r := min_eq_left (not_lt.mp hgt)
    simp [h2, hneg, hgt, this]

theorem initial_lmax_unset (M C : Int) : initial_lmax M C (-1) = min M C := by
  unfold initial_lmax
  by_cases h : M > C
  · simp [h, min_eq_right (le_of_lt h)]
  · simp [h, min_eq_left (not_lt.mp h)]

theorem initial_lmax_set (M C lmax : Int) (h : 0 ≤ lmax) : initial_lmax M C lmax = lmax := by
  unfold initial_lmax
  have : ¬ lmax < 0 := by omega
  simp [this]

theorem compute_SH2amp_mapping_default {μ : Type} (init_transform : Int → μ) (ratio : μ → ℚ) (M C : Int) (opt : Option Int) (b : Bool)
    (hno : b = false ∨ opt = none) :
    compute_SH2amp_mapping init_transform ratio M opt b C
      = .ok (report_reduction (min M C)
          (order_search init_transform ratio false (min M C) [] [])) := by
  unfold compute_SH2amp_mapping
  rw [lmax_from_options_none M b opt hno]
  simp only [initial_lmax_unset]

theorem compute_SH2amp_mapping_explicit {μ : Type} (init_transform : Int → μ) (ratio : μ → ℚ) (M C r : Int) (hr0 : 0 ≤ r) (hre : r % 2 = 0)
    (hM : 0 ≤ M) :
    compute_SH2amp_mapping init_transform ratio M (some r) true C
      = .ok ⟨init_transform (min r M), min r M, [min r M],
          (if r > M then [Warning.not_enough_directions r M] else [])
            ++ conditioning_warnings init_transform ratio [min r M]⟩ := by
  unfold compute_SH2amp_mapping
  rw [lmax_from_options_some M r hr0 hre]
  simp only [initial_lmax_set M C (min r M) (le_min hr0 hM), order_search_fixed]
  simp [report_reduction]

theorem report_reduction_mapping {μ : Type} (lmax_prev : Int) (r : SH2amp μ) :
    (report_reduction lmax_prev r).mapping = r.mapping := by
  unfold report_reduction
  split <;> rfl

theorem report_reduction_built {μ : Type} (lmax_prev : Int) (r : SH2amp μ) :
    (report_reduction lmax_prev r).built = r.built := by
  unfold report_reduction
  split <;> rfl

theorem report_reduction_lmax {μ : Type} (lmax_prev : Int) (r : SH2amp μ) :
    (report_reduction lmax_prev r).lmax = r.lmax := by
  unfold report_reduction
  split <;> rfl
theorem orders_from_getLast (s : Int) (n : Nat) :
    (orders_from s (n + 1)).getLast? = some (s - 2 * n) := by
  induction n generalizing s with
  | zero => simp [orders_from]
  | succ n ih =>
    have h := ih (s - 2)
    simp only [orders_from] at h ⊢
    rw [List.getLast?_cons_cons, h]
    congr 1
    push_cast
    ring

/-! ## Lemmas on rows -/

theorem normalise_grad_loop_apply {K : Type} [Field K] [DecidableEq K] (sqrt : K → K)
    {m n : Nat} (h : 3 ≤ n) (grad : Fin m → Fin n → K) (i : Nat) (r : Fin m) :
    normalise_grad_loop sqrt h grad i r
      = if r.val < i then normalise_row sqrt h (grad r) else grad r := by
  induction i with
  | zero => simp [normalise_grad_loop]
  | succ i ih =>
    simp only [normalise_grad_loop, ih]
    by_cases h1 : r.val = i
    · simp [h1]
    · by_cases h2 : r.val < i
      · have : r.val < i + 1 := by omega
        simp [h1, h2, this]
      · have : ¬ r.val < i + 1 := by omega
        simp [h1, h2, this]

theorem normalise_grad_ok {K : Type} [Field K] [DecidableEq K] (sqrt : K → K)
    {m n : Nat} (h : 3 ≤ n) (grad : Fin m → Fin n → K) :
    normalise_grad sqrt grad = .ok (fun r => normalise_row sqrt h (grad r)) := by
  unfold normalise_grad
  have hn : ¬ n < 3 := by omega
  simp only [hn, dite_false]
  congr 1
  funext r
  rw [normalise_grad_loop_apply]
  simp [r.isLt]

theorem gen_direction_matrix_loop_apply {K : Type} [LinearOrderedField K] (sqrt : K → K)
    (atan2 : K → K → K) (acos : K → K) (pi : K) {m n k : Nat} (h : 3 ≤ n)
    (grad : Fin m → Fin n → K) (dwi : Fin k → Fin m) (dirs : Fin k → Fin 2 → K)
    (i : Nat) (r : Fin k) :
    gen_direction_matrix_loop sqrt atan2 acos pi h grad dwi dirs i r
      = if r.val < i then direction_of_row sqrt atan2 acos pi h (grad (dwi r)) else dirs r := by
  induction i with
  | zero => simp [gen_direction_matrix_loop]
  | succ i ih =>
    simp only [gen_direction_matrix_loop, ih]
    by_cases h1 : r.val = i
    · simp [h1]
    · by_cases h2 : r.val < i
      · have : r.val < i + 1 := by omega
        simp [h1, h2, this]
      · have : ¬ r.val < i + 1 := by omega
        simp [h1, h2, this]

theorem head3_norm_real_sq {n : Nat} (h : 3 ≤ n) (row : Fin n → ℝ) :
    head3_norm Real.sqrt h row * head3_norm Real.sqrt h row
      = row ⟨0, by omega⟩ * row ⟨0, by omega⟩ + row ⟨1, by omega⟩ * row ⟨1, by omega⟩
        + row ⟨2, by omega⟩ * row ⟨2, by omega⟩ := by
  unfold head3_norm
  apply Real.mul_self_sqrt
  exact add_nonneg (add_nonneg (mul_self_nonneg _) (mul_self_nonneg _)) (mul_self_nonneg _)

theorem head3_norm_real_eq_zero_iff {n : Nat} (h : 3 ≤ n) (row : Fin n → ℝ) :
    head3_norm Real.sqrt h row = 0
      ↔ (row ⟨0, by omega⟩ = 0 ∧ row ⟨1, by omega⟩ = 0 ∧ row ⟨2, by omega⟩ = 0) := by
  constructor
  · intro h0
    have hsq := head3_norm_real_sq h row
    rw [h0] at hsq
    have a := mul_self_nonneg (row ⟨0, by omega⟩)
    have b := mul_self_nonneg (row ⟨1, by omega⟩)
    have c := mul_self_nonneg (row ⟨2, by omega⟩)
    refine ⟨?_, ?_, ?_⟩ <;> apply mul_self_eq_zero.mp <;> nlinarith
  · rintro ⟨a, b, c⟩
    unfold head3_norm
    simp [a, b, c]

theorem head3_norm_normalise_row {n : Nat} (h : 3 ≤ n) (row : Fin n → ℝ)
    (hne : head3_norm Real.sqrt h row ≠ 0) :
    head3_norm Real.sqrt h (normalise_row Real.sqrt h row) = 1 := by
  have hsq := head3_norm_real_sq h row
  unfold normalise_row
  simp only [hne, ne_eq, not_false_eq_true, if_true]
  unfold head3_norm at hsq hne ⊢
  simp only [Nat.ofNat_pos, Nat.one_lt_ofNat, Nat.lt_add_one, if_true, Nat.lt_succ_self]
  set N := Real.sqrt (row ⟨0, by omega⟩ * row ⟨0, by omega⟩ + row ⟨1, by omega⟩ * row ⟨1, by omega⟩
    + row ⟨2, by omega⟩ * row ⟨2, by omega⟩) with hN
  have : row ⟨0, by omega⟩ / N * (row ⟨0, by omega⟩ / N) + row ⟨1, by omega⟩ / N * (row ⟨1, by omega⟩ / N)
      + row ⟨2, by omega⟩ / N * (row ⟨2, by omega⟩ / N) = 1 := by
    field_simp
    linarith
  simp [this]

theorem normalise_row_of_norm_zero {n : Nat} (h : 3 ≤ n) (row : Fin n → ℝ)
    (h0 : head3_norm Real.sqrt h row = 0) : normalise_row Real.sqrt h row = row := by
  unfold normalise_row
  simp [h0]

theorem normalise_row_of_norm_one {n : Nat} (h : 3 ≤ n) (row : Fin n → ℝ)
    (h1 : head3_norm Real.sqrt h row = 1) : normalise_row Real.sqrt h row = row := by
  unfold normalise_row
  funext j
  simp [h1]

theorem normalise_row_idem {n : Nat} (h : 3 ≤ n) (row : Fin n → ℝ) :
    normalise_row Real.sqrt h (normalise_row Real.sqrt h row) = normalise_row Real.sqrt h row := by
  by_cases hne : head3_norm Real.sqrt h row = 0
  · rw [normalise_row_of_norm_zero h row hne, normalise_row_of_norm_zero h row hne]
  · exact normalise_row_of_norm_one h _ (head3_norm_normalise_row h row hne)

/-! ## Lemmas on the `-prs` option -/

theorem prs_flip_row_apply {K : Type} [Neg K] {n : Nat} (h : 3 ≤ n) (row : Fin n → K)
    (j : Fin n) :
    prs_flip_row h row j
      = if j.val = 0 then row ⟨1, by omega⟩
        else if j.val = 1 then row ⟨0, by omega⟩
        else if j.val = 2 then - row ⟨2, by omega⟩
        else row j := by
  unfold prs_flip_row
  rcases j with ⟨v, hv⟩
  by_cases h0 : v = 0
  · subst h0
    simp [Function.update, Fin.ext_iff]
  · by_cases h1 : v = 1
    · subst h1
      simp [Function.update, Fin.ext_iff]
    · by_cases h2 : v = 2
      · subst h2
        simp [Function.update, Fin.ext_iff]
      · simp [Function.update, Fin.ext_iff, h0, h1, h2]

theorem prs_flip_loop_apply {K : Type} [Neg K] {m n : Nat} (h : 3 ≤ n)
    (DW_scheme : Fin m → Fin n → K) (row : Nat) (r : Fin m) :
    prs_flip_loop h DW_scheme row r
      = if r.val < row then prs_flip_row h (DW_scheme r) else DW_scheme r := by
  induction row with
  | zero => simp [prs_flip_loop]
  | succ row ih =>
    simp only [prs_flip_loop, ih]
    by_cases h1 : r.val = row
    · simp [h1]
    · by_cases h2 : r.val < row
      · have : r.val < row + 1 := by omega
        simp [h1, h2, this]
      · have : ¬ r.val < row + 1 := by omega
        simp [h1, h2, this]

theorem prs_flip_set {K : Type} [Neg K] {m n : Nat} (h : 3 ≤ n)
    (DW_scheme : Fin m → Fin n → K) :
    prs_flip true h DW_scheme = fun r => prs_flip_row h (DW_scheme r) := by
  funext r
  have hm : m ≠ 0 := by
    have := r.isLt
    omega
  have hn : n ≠ 0 := by omega
  unfold prs_flip
  simp [hm, hn, prs_flip_loop_apply, r.isLt]

theorem prs_flip_row_twice {K : Type} [InvolutiveNeg K] {n : Nat} (h : 3 ≤ n)
    (row : Fin n → K) : prs_flip_row h (prs_flip_row h row) = row := by
  funext j
  rw [prs_flip_row_apply h (prs_flip_row h row) j]
  rcases j with ⟨v, hv⟩
  by_cases h0 : v = 0
  · subst h0
    simp [prs_flip_row_apply]
  · by_cases h1 : v = 1
    · subst h1
      simp [prs_flip_row_apply]
    · by_cases h2 : v = 2
      · subst h2
        simp [prs_flip_row_apply]
      · simp [prs_flip_row_apply, h0, h1, h2]

theorem orders_from_length (s : Int) (len : Nat) : (orders_from s len).length = len := by
  induction len generalizing s with
  | zero => simp [orders_from]
  | succ len ih => simp [orders_from, ih]

/-! ## Theorems on `check_DW_scheme` -/

/-- C1 (as stated, refuted): a table with `2^32 + 1` rows passes the check against
a 4-dimensional image whose extent along axis 3 is 1, because the row count is
narrowed to `int` before the comparison; the row count does not equal the
extent. -/
theorem check_DW_scheme_accepts_wrapped_row_count :
    check_DW_scheme ⟨[1, 1, 1, 1]⟩ (fun (_ : Fin 4294967297) (_ : Fin 4) => (0 : ℚ))
        = .ok ()
      ∧ ((4294967297 : Nat) : Int) ≠ Header.size ⟨[1, 1, 1, 1]⟩ 3 := by
  constructor
  · rfl
  · decide

/-- C1 (amended): for every header and every table with fewer than `2^31` rows,
`check_DW_scheme` succeeds exactly when the table has more than 0 rows, the
header has exactly 4 dimensions and the row count equals the extent along
axis 3; in every other case it raises an error. -/
theorem check_DW_scheme_ok_iff {K : Type} {m n : Nat} (header : Header)
    (grad : Fin m → Fin n → K) (hm : m < 2147483648) :
    (check_DW_scheme header grad = .ok ()
        ↔ (0 < m ∧ header.ndim = 4 ∧ (m : Int) = header.size 3))
      ∧ (¬ (0 < m ∧ header.ndim = 4 ∧ (m : Int) = header.size 3)
          → ∃ e, check_DW_scheme header grad = .error e) := by
  unfold check_DW_scheme
  rw [to_int_of_lt hm]
  by_cases h0 : m = 0
  · simp [h0]
  · by_cases h4 : header.ndim = 4
    · by_cases h3 : header.size 3 = (m : Int)
      · simp [h0, h4, h3, Nat.pos_of_ne_zero h0]
      · have h3' : ¬ ((m : Int) = header.size 3) := fun h => h3 h.symm
        simp [h0, h4, h3, h3']
    · simp [h0, h4]

/-- An instance of `check_DW_scheme_ok_iff`: a table of 6 rows checked against a
4-dimensional image of extent 6 along axis 3. -/
theorem check_DW_scheme_ok_iff_witness :
    (6 < 2147483648)
      ∧ ((check_DW_scheme ⟨[96, 96, 60, 6]⟩ (fun (_ : Fin 6) (_ : Fin 4) => (0 : ℚ)) = .ok ()
            ↔ (0 < 6 ∧ Header.ndim ⟨[96, 96, 60, 6]⟩ = 4
                ∧ ((6 : Nat) : Int) = Header.size ⟨[96, 96, 60, 6]⟩ 3))
          ∧ (¬ (0 < 6 ∧ Header.ndim ⟨[96, 96, 60, 6]⟩ = 4
                ∧ ((6 : Nat) : Int) = Header.size ⟨[96, 96, 60, 6]⟩ 3)
              → ∃ e, check_DW_scheme ⟨[96, 96, 60, 6]⟩
                  (fun (_ : Fin 6) (_ : Fin 4) => (0 : ℚ)) = .error e)) :=
  ⟨by decide, check_DW_scheme_ok_iff ⟨[96, 96, 60, 6]⟩ _ (by decide)⟩


/-! ## Theorems on `compute_SH2amp_mapping` -/

/-- C2: with an explicit order `r` supplied through the `lmax` option,
`compute_SH2amp_mapping` raises an error if and only if `r` is odd or negative,
whatever the direction-supported maximum, the default ceiling and the condition
ratios are; for every even non-negative `r` it returns a result. -/
theorem compute_SH2amp_mapping_error_iff {μ : Type} (init_transform : Int → μ)
    (ratio : μ → ℚ) (M C r : Int) :
    ((∃ e, compute_SH2amp_mapping init_transform ratio M (some r) true C = .error e)
        ↔ (Odd r ∨ r < 0))
      ∧ (¬ (Odd r ∨ r < 0)
          → ∃ res, compute_SH2amp_mapping init_transform ratio M (some r) true C = .ok res) := by
  rw [Int.odd_iff]
  have key : ∀ x : Except String (Int × Bool × List Warning),
      lmax_from_options M true (some r) = x →
      ((∃ e, compute_SH2amp_mapping init_transform ratio M (some r) true C = .error e)
        ↔ ∃ e, x = .error e)
      ∧ ((∃ y, x = .ok y)
          → ∃ res, compute_SH2amp_mapping init_transform ratio M (some r) true C = .ok res) := by
    intro x hx
    unfold compute_SH2amp_mapping
    rw [hx]
    cases x with
    | error e => simp
    | ok y => simp
  have hopt : (∃ e, lmax_from_options M true (some r) = .error e) ↔ (r % 2 = 1 ∨ r < 0) := by
    unfold lmax_from_options
    by_cases h2 : Int.tmod r 2 = 0
    · have hre : r % 2 = 0 := (tmod_two_eq_zero_iff r).mp h2
      by_cases hneg : r < 0
      · simp [h2, hneg]
      · by_cases hgt : r > M
        · simp [h2, hneg, hgt, hre]
        · simp [h2, hneg, hgt, hre]
    · have hro : r % 2 = 1 := by
        have := (tmod_two_eq_zero_iff r).not.mp h2
        omega
      simp [h2, hro]
  obtain ⟨k1, k2⟩ := key _ rfl
  refine ⟨k1.trans hopt, fun hn => k2 ?_⟩
  cases hx : lmax_from_options M true (some r) with
  | error e => exact absurd (hopt.mp ⟨e, hx⟩) hn
  | ok y => exact ⟨y, rfl⟩

/-- C3: with no explicit order, the search starts at `s = min M C` and builds the
orders `s, s - 2, ..., s - 2 * n` (none after the first below 0); the returned
mapping is the one built last, every candidate order above it has condition
ratio 100 or more, and whenever some candidate order has ratio below 100 the
last order built is a candidate with ratio below 100, hence the largest such,
and the search ends there. -/
theorem compute_SH2amp_mapping_default_search {μ : Type} (init_transform : Int → μ)
    (ratio : μ → ℚ) (M C : Int) (opt : Option Int) (b : Bool)
    (hno : b = false ∨ opt = none) :
    ∃ (res : SH2amp μ) (n : Nat),
      compute_SH2amp_mapping init_transform ratio M opt b C = .ok res
      ∧ res.built = orders_from (min M C) (n + 1)
      ∧ (n = 0 ∨ 0 ≤ min M C - 2 * n)
      ∧ res.mapping = init_transform (min M C - 2 * n)
      ∧ (∀ k, is_candidate (min M C) k → min M C - 2 * n < k
          → 100 ≤ ratio (init_transform k))
      ∧ ((∃ k, is_candidate (min M C) k ∧ ratio (init_transform k) < 100)
          → is_candidate (min M C) (min M C - 2 * n)
            ∧ ratio (init_transform (min M C - 2 * n)) < 100
            ∧ res.lmax = min M C - 2 * n) := by
  rw [compute_SH2amp_mapping_default init_transform ratio M C opt b hno]
  generalize min M C = s
  obtain ⟨n, hn0, hmap, hbuilt, _, hall, hend⟩ := order_search_spec init_transform ratio s [] []
  refine ⟨_, n, rfl, ?_, hn0, ?_, ?_, ?_⟩
  · rw [report_reduction_built, hbuilt]; simp
  · rw [report_reduction_mapping, hmap]
  · intro k hk hlt
    obtain ⟨_, hks, hpar⟩ := hk
    have hj : s - 2 * (((s - k) / 2).toNat : Int) = k := by omega
    have := hall ((s - k) / 2).toNat (by omega)
    rwa [hj] at this
  · rintro ⟨k, ⟨hk0, hks, hpar⟩, hk100⟩
    have habove : ∀ k', is_candidate s k' → s - 2 * (n : Int) < k'
        → 100 ≤ ratio (init_transform k') := by
      intro k' hk' hlt
      obtain ⟨_, hks', hpar'⟩ := hk'
      have hj : s - 2 * (((s - k') / 2).toNat : Int) = k' := by omega
      have := hall ((s - k') / 2).toNat (by omega)
      rwa [hj] at this
    have hcand : is_candidate s (s - 2 * (n : Int)) := by
      refine ⟨?_, by omega, by omega⟩
      rcases hn0 with h | h
      · subst h; simpa using le_trans hk0 hks
      · exact h
    rcases hend with ⟨hlt, hl⟩ | ⟨hge, hfloor, _⟩
    · exact ⟨hcand, hlt, by rw [report_reduction_lmax, hl]⟩
    · exfalso
      rcases lt_trichotomy k (s - 2 * (n : Int)) with h | h | h
      · omega
      · rw [h] at hk100
        exact absurd hk100 (not_lt.mpr hge)
      · exact absurd hk100 (not_lt.mpr (habove k ⟨hk0, hks, hpar⟩ h))

/-- An instance of `compute_SH2amp_mapping_default_search`: no `lmax` option,
`M = 8`, `C = 8` and every condition ratio equal to 5. -/
theorem compute_SH2amp_mapping_default_search_witness :
    (true = false ∨ (none : Option Int) = none)
      ∧ ∃ (res : SH2amp Int) (n : Nat),
          compute_SH2amp_mapping id (fun _ => (5 : ℚ)) 8 none true 8 = .ok res
          ∧ res.built = orders_from (min 8 8) (n + 1)
          ∧ (n = 0 ∨ 0 ≤ min (8 : Int) 8 - 2 * n)
          ∧ res.mapping = id (min (8 : Int) 8 - 2 * n)
          ∧ (∀ k, is_candidate (min 8 8) k → min (8 : Int) 8 - 2 * n < k
              → 100 ≤ (fun _ => (5 : ℚ)) (id k))
          ∧ ((∃ k, is_candidate (min 8 8) k ∧ (fun _ => (5 : ℚ)) (id k) < 100)
              → is_candidate (min 8 8) (min (8 : Int) 8 - 2 * n)
                ∧ (fun _ => (5 : ℚ)) (id (min (8 : Int) 8 - 2 * n)) < 100
                ∧ res.lmax = min (8 : Int) 8 - 2 * n) :=
  ⟨Or.inr rfl,
    compute_SH2amp_mapping_default_search id (fun _ => (5 : ℚ)) 8 8 none true (Or.inr rfl)⟩

/-- C4: for every even non-negative explicit order `r` and every (non-negative)
direction-supported maximum `M`, the returned mapping is the one built at
order `min r M`; it is the only mapping built and `lmax` ends at `min r M`,
whatever the condition ratio at that order is. -/
theorem compute_SH2amp_mapping_explicit_order {μ : Type} (init_transform : Int → μ)
    (ratio : μ → ℚ) (M C r : Int) (hr0 : 0 ≤ r) (hre : r % 2 = 0) (hM : 0 ≤ M) :
    ∃ res, compute_SH2amp_mapping init_transform ratio M (some r) true C = .ok res
      ∧ res.mapping = init_transform (min r M)
      ∧ res.built = [min r M]
      ∧ res.lmax = min r M := by
  rw [compute_SH2amp_mapping_explicit init_transform ratio M C r hr0 hre hM]
  exact ⟨_, rfl, rfl, rfl, rfl⟩

/-- An instance of `compute_SH2amp_mapping_explicit_order`: explicit order 6 with
`M = 4` and every condition ratio equal to 1000. -/
theorem compute_SH2amp_mapping_explicit_order_witness :
    ((0 : Int) ≤ 6 ∧ (6 : Int) % 2 = 0 ∧ (0 : Int) ≤ 4)
      ∧ ∃ res, compute_SH2amp_mapping id (fun _ => (1000 : ℚ)) 4 (some 6) true 8 = .ok res
          ∧ res.mapping = id (min 6 4)
          ∧ res.built = [min 6 4]
          ∧ res.lmax = min 6 4 :=
  ⟨⟨by decide, by decide, by decide⟩,
    compute_SH2amp_mapping_explicit_order id (fun _ => (1000 : ℚ)) 4 8 6
      (by decide) (by decide) (by decide)⟩

/-- C5 (as stated, refuted): with no explicit order, `M = 8` and default ceiling
`C = -2`, the only mapping is built at order -2 and the final order is -2,
which is below 0. -/
theorem compute_SH2amp_mapping_negative_ceiling :
    compute_SH2amp_mapping id (fun _ => (1 : ℚ)) 8 none true (-2)
        = .ok ⟨-2, -2, [-2], []⟩
      ∧ (-2 : Int) < 0 := by
  refine ⟨?_, by decide⟩
  rw [compute_SH2amp_mapping_default id (fun _ => (1 : ℚ)) 8 (-2) none true (Or.inr rfl)]
  have hmin : min (8 : Int) (-2) = -2 := by decide
  rw [hmin, order_search_lt_10 id (fun _ => (1 : ℚ)) false (-2) [] [] (by norm_num)]
  rfl

/-- C5 (amended): with no explicit order, a non-negative direction-supported
maximum `M` and a non-negative default ceiling `C`, the search returns, the
returned mapping is the last one built, at an order `k` with
`0 ≤ k ≤ min M C`, the final value of `lmax` is at most `min M C`, and it is
`k` whenever the condition ratio at `k` is below 100. -/
theorem compute_SH2amp_mapping_final_order_bounds {μ : Type} (init_transform : Int → μ)
    (ratio : μ → ℚ) (M C : Int) (opt : Option Int) (b : Bool)
    (hno : b = false ∨ opt = none) (hM : 0 ≤ M) (hC : 0 ≤ C) :
    ∃ (res : SH2amp μ) (k : Int),
      compute_SH2amp_mapping init_transform ratio M opt b C = .ok res
      ∧ 0 ≤ k ∧ k ≤ min M C
      ∧ res.mapping = init_transform k
      ∧ res.built.getLast? = some k
      ∧ res.lmax ≤ min M C
      ∧ (ratio (init_transform k) < 100 → res.lmax = k) := by
  rw [compute_SH2amp_mapping_default init_transform ratio M C opt b hno]
  have hs : 0 ≤ min M C := le_min hM hC
  generalize min M C = s at hs
  obtain ⟨n, hn0, hmap, hbuilt, _, _, hend⟩ := order_search_spec init_transform ratio s [] []
  have hk0 : 0 ≤ s - 2 * (n : Int) := by
    rcases hn0 with h | h
    · subst h; simpa using hs
    · exact h
  refine ⟨_, s - 2 * (n : Int), rfl, hk0, by omega, ?_, ?_, ?_, ?_⟩
  · rw [report_reduction_mapping, hmap]
  · rw [report_reduction_built, hbuilt, List.nil_append, orders_from_getLast]
  · rw [report_reduction_lmax]
    rcases hend with ⟨_, hl⟩ | ⟨_, _, hl⟩ <;> rw [hl] <;> omega
  · intro hlt
    rw [report_reduction_lmax]
    rcases hend with ⟨_, hl⟩ | ⟨hge, _, _⟩
    · exact hl
    · exact absurd hlt (not_lt.mpr hge)

/-- An instance of `compute_SH2amp_mapping_final_order_bounds`: no `lmax` option,
`M = 8`, `C = 6` and every condition ratio equal to 1000. -/
theorem compute_SH2amp_mapping_final_order_bounds_witness :
    ((true = false ∨ (none : Option Int) = none) ∧ (0 : Int) ≤ 8 ∧ (0 : Int) ≤ 6)
      ∧ ∃ (res : SH2amp Int) (k : Int),
          compute_SH2amp_mapping id (fun _ => (1000 : ℚ)) 8 none true 6 = .ok res
          ∧ 0 ≤ k ∧ k ≤ min 8 6
          ∧ res.mapping = id k
          ∧ res.built.getLast? = some k
          ∧ res.lmax ≤ min 8 6
          ∧ ((fun _ => (1000 : ℚ)) (id k) < 100 → res.lmax = k) :=
  ⟨⟨Or.inr rfl, by decide, by decide⟩,
    compute_SH2amp_mapping_final_order_bounds id (fun _ => (1000 : ℚ)) 8 6 none true
      (Or.inr rfl) (by decide) (by decide)⟩

/-- C6 (as stated, refuted): with no explicit order, `M = 10` (enough directions
for order 8), condition ratio 5 at every order (so below 10 at order 8) and
default ceiling `C = 10`, the function ends at order 10, not at
`min 8 10 = 8`. -/
theorem compute_SH2amp_mapping_ceiling_above_8 :
    (8 : Int) ≤ 10
      ∧ (fun _ => (5 : ℚ)) (id (8 : Int)) < 10
      ∧ compute_SH2amp_mapping id (fun _ => (5 : ℚ)) 10 none true 10
          = .ok ⟨10, 10, [10], []⟩
      ∧ (10 : Int) ≠ min 8 10 := by
  refine ⟨by decide, by norm_num, ?_, by decide⟩
  rw [compute_SH2amp_mapping_default id (fun _ => (5 : ℚ)) 10 10 none true (Or.inr rfl)]
  have hmin : min (10 : Int) 10 = 10 := by decide
  rw [hmin, order_search_lt_10 id (fun _ => (5 : ℚ)) false 10 [] [] (by norm_num)]
  rfl

/-- C6 (amended): with no explicit order, for every direction-supported maximum
`M ≥ 8` and every default ceiling `C` with `C ≤ 8` or `M = 8`, when the mapping
at order `min 8 C` has condition ratio below 10 the function builds that
mapping only, ends at order `min 8 C` and emits no warning. -/
theorem compute_SH2amp_mapping_well_conditioned {μ : Type} (init_transform : Int → μ)
    (ratio : μ → ℚ) (M C : Int) (opt : Option Int) (b : Bool)
    (hno : b = false ∨ opt = none) (hM : 8 ≤ M) (hC : C ≤ 8 ∨ M = 8)
    (h10 : ratio (init_transform (min 8 C)) < 10) :
    compute_SH2amp_mapping init_transform ratio M opt b C
      = .ok ⟨init_transform (min 8 C), min 8 C, [min 8 C], []⟩ := by
  rw [compute_SH2amp_mapping_default init_transform ratio M C opt b hno]
  have hmin : min M C = min 8 C := by
    rcases hC with h | h
    · rw [min_eq_right (le_trans h hM), min_eq_right h]
    · rw [h]
  rw [hmin, order_search_lt_10 init_transform ratio false (min 8 C) [] [] h10]
  simp [report_reduction]

/-- An instance of `compute_SH2amp_mapping_well_conditioned`: no `lmax` option,
`M = 8`, `C = 8` and every condition ratio equal to 5. -/
theorem compute_SH2amp_mapping_well_conditioned_witness :
    ((true = false ∨ (none : Option Int) = none) ∧ (8 : Int) ≤ 8
        ∧ ((8 : Int) ≤ 8 ∨ (8 : Int) = 8) ∧ (fun _ => (5 : ℚ)) (id (min (8 : Int) 8)) < 10)
      ∧ compute_SH2amp_mapping id (fun _ => (5 : ℚ)) 8 none true 8
          = .ok ⟨id (min 8 8), min 8 8, [min 8 8], []⟩ :=
  ⟨⟨Or.inr rfl, by decide, Or.inl (by decide), by norm_num⟩,
    compute_SH2amp_mapping_well_conditioned id (fun _ => (5 : ℚ)) 8 8 none true
      (Or.inr rfl) (by decide) (Or.inl (by decide)) (by norm_num)⟩

/-- C7 (as stated, refuted): with `M = 0` (too few directions for order 2),
explicit order 4 and a condition ratio of 1000 at order 4, the order is clamped
to 0, where the ratio is 1: the mapping is returned with the
not-enough-directions warning only, and no poor-conditioning warning. -/
theorem compute_SH2amp_mapping_clamped_without_conditioning_warning :
    10 ≤ (fun l : Int => if l = 0 then (1 : ℚ) else 1000) (id (4 : Int))
      ∧ compute_SH2amp_mapping id (fun l : Int => if l = 0 then (1 : ℚ) else 1000)
            0 (some 4) true 8
          = .ok ⟨0, 0, [0], [Warning.not_enough_directions 4 0]⟩
      ∧ [Warning.not_enough_directions 4 0].any Warning.is_poorly_distributed = false := by
  refine ⟨by norm_num, ?_, by decide⟩
  rw [compute_SH2amp_mapping_explicit id (fun l : Int => if l = 0 then (1 : ℚ) else 1000)
    0 8 4 (by decide) (by decide) (by decide)]
  have hmin : min (4 : Int) 0 = 0 := by decide
  rw [hmin]
  simp [conditioning_warnings]

/-- C7 (amended): for every even non-negative explicit order `r` and
non-negative direction-supported maximum `M`, a mapping is returned without an
error, built at order `min r M`; a poor-conditioning warning is emitted if and
only if the condition ratio at order `min r M` is 10 or more. -/
theorem compute_SH2amp_mapping_explicit_warning {μ : Type} (init_transform : Int → μ)
    (ratio : μ → ℚ) (M C r : Int) (hr0 : 0 ≤ r) (hre : r % 2 = 0) (hM : 0 ≤ M) :
    ∃ res, compute_SH2amp_mapping init_transform ratio M (some r) true C = .ok res
      ∧ res.mapping = init_transform (min r M)
      ∧ (res.warnings.any Warning.is_poorly_distributed = true
          ↔ 10 ≤ ratio (init_transform (min r M))) := by
  rw [compute_SH2amp_mapping_explicit init_transform ratio M C r hr0 hre hM]
  refine ⟨_, rfl, rfl, ?_⟩
  by_cases h10 : ratio (init_transform (min r M)) < 10
  · by_cases hgt : r > M
    · simp [conditioning_warnings, h10, not_le.mpr h10, hgt, Warning.is_poorly_distributed]
    · simp [conditioning_warnings, h10, not_le.mpr h10, hgt, Warning.is_poorly_distributed]
  · by_cases hgt : r > M
    · simp [conditioning_warnings, h10, not_lt.mp h10, hgt, Warning.is_poorly_distributed]
    · simp [conditioning_warnings, h10, not_lt.mp h10, hgt, Warning.is_poorly_distributed]

/-- An instance of `compute_SH2amp_mapping_explicit_warning`: explicit order 4 with
`M = 8` and every condition ratio equal to 1000. -/
theorem compute_SH2amp_mapping_explicit_warning_witness :
    ((0 : Int) ≤ 4 ∧ (4 : Int) % 2 = 0 ∧ (0 : Int) ≤ 8)
      ∧ ∃ res, compute_SH2amp_mapping id (fun _ => (1000 : ℚ)) 8 (some 4) true 8 = .ok res
          ∧ res.mapping = id (min 4 8)
          ∧ (res.warnings.any Warning.is_poorly_distributed = true
              ↔ 10 ≤ (fun _ => (1000 : ℚ)) (id (min (4 : Int) 8))) :=
  ⟨⟨by decide, by decide, by decide⟩,
    compute_SH2amp_mapping_explicit_warning id (fun _ => (1000 : ℚ)) 8 8 4
      (by decide) (by decide) (by decide)⟩

/-! ## Theorems on `normalise_grad` and `gen_direction_matrix` -/

/-- C8: over the real numbers `normalise_grad` is idempotent on every table with
at least 3 columns: it returns a table `T`, normalising `T` again returns `T`
itself, and so every entry of the second result is within `1e-9` of the
first. -/
theorem normalise_grad_idempotent {m n : Nat} (grad : Fin m → Fin n → ℝ) (h : 3 ≤ n) :
    ∃ T, normalise_grad Real.sqrt grad = .ok T
      ∧ normalise_grad Real.sqrt T = .ok T
      ∧ ∀ T', normalise_grad Real.sqrt T = .ok T'
          → ∀ i j, |T' i j - T i j| ≤ 1 / 1000000000 := by
  have hidem : normalise_grad Real.sqrt (fun r => normalise_row Real.sqrt h (grad r))
      = .ok (fun r => normalise_row Real.sqrt h (grad r)) := by
    rw [normalise_grad_ok Real.sqrt h]
    congr 1
    funext r
    exact normalise_row_idem h (grad r)
  refine ⟨_, normalise_grad_ok Real.sqrt h grad, hidem, ?_⟩
  intro T' hT' i j
  rw [hidem] at hT'
  injection hT' with hT'
  rw [← hT']
  simp

/-- An instance of `normalise_grad_idempotent`: a table of 2 rows and 4 columns
with every entry equal to 1. -/
theorem normalise_grad_idempotent_witness :
    (3 ≤ 4)
      ∧ ∃ T, normalise_grad Real.sqrt (fun (_ : Fin 2) (_ : Fin 4) => (1 : ℝ)) = .ok T
          ∧ normalise_grad Real.sqrt T = .ok T
          ∧ ∀ T', normalise_grad Real.sqrt T = .ok T'
              → ∀ i j, |T' i j - T i j| ≤ 1 / 1000000000 :=
  ⟨by decide, normalise_grad_idempotent (fun (_ : Fin 2) (_ : Fin 4) => (1 : ℝ)) (by decide)⟩

/-- C9: over the real numbers, on every table with at least 3 columns
`normalise_grad` returns a table with the same rows in the same order in which
each row of non-zero direction norm has its first three entries divided by
that norm (so the direction has norm 1), each row of zero norm (exactly the
rows whose direction vector is zero) is unchanged, and every entry from the
fourth column on is unchanged. -/
theorem normalise_grad_rows {m n : Nat} (grad : Fin m → Fin n → ℝ) (h : 3 ≤ n) :
    ∃ T, normalise_grad Real.sqrt grad = .ok T
      ∧ ∀ i : Fin m,
          (head3_norm Real.sqrt h (grad i) ≠ 0
            → (∀ j : Fin n, j.val < 3 → T i j = grad i j / head3_norm Real.sqrt h (grad i))
              ∧ head3_norm Real.sqrt h (T i) = 1)
          ∧ (head3_norm Real.sqrt h (grad i) = 0 → T i = grad i)
          ∧ (head3_norm Real.sqrt h (grad i) = 0
              ↔ (grad i ⟨0, by omega⟩ = 0 ∧ grad i ⟨1, by omega⟩ = 0
                  ∧ grad i ⟨2, by omega⟩ = 0))
          ∧ (∀ j : Fin n, 3 ≤ j.val → T i j = grad i j) := by
  refine ⟨_, normalise_grad_ok Real.sqrt h grad, fun i => ⟨?_, ?_, ?_, ?_⟩⟩
  · intro hne
    refine ⟨?_, head3_norm_normalise_row h (grad i) hne⟩
    intro j hj
    unfold normalise_row
    simp [hne, hj]
  · intro h0
    exact normalise_row_of_norm_zero h (grad i) h0
  · exact head3_norm_real_eq_zero_iff h (grad i)
  · intro j hj
    have : ¬ j.val < 3 := by omega
    unfold normalise_row
    by_cases h0 : head3_norm Real.sqrt h (grad i) = 0
    · simp [h0]
    · simp [h0, this]

/-- An instance of `normalise_grad_rows`: a table of 2 rows and 4 columns with
every entry equal to 1. -/
theorem normalise_grad_rows_witness :
    (3 ≤ 4)
      ∧ ∃ T, normalise_grad Real.sqrt (fun (_ : Fin 2) (_ : Fin 4) => (1 : ℝ)) = .ok T
          ∧ ∀ i : Fin 2,
              (head3_norm Real.sqrt (by decide) ((fun (_ : Fin 2) (_ : Fin 4) => (1 : ℝ)) i) ≠ 0
                → (∀ j : Fin 4, j.val < 3
                    → T i j = (fun (_ : Fin 2) (_ : Fin 4) => (1 : ℝ)) i j
                        / head3_norm Real.sqrt (by decide)
                            ((fun (_ : Fin 2) (_ : Fin 4) => (1 : ℝ)) i))
                  ∧ head3_norm Real.sqrt (by decide) (T i) = 1)
              ∧ (head3_norm Real.sqrt (by decide) ((fun (_ : Fin 2) (_ : Fin 4) => (1 : ℝ)) i) = 0
                  → T i = (fun (_ : Fin 2) (_ : Fin 4) => (1 : ℝ)) i)
              ∧ (head3_norm Real.sqrt (by decide) ((fun (_ : Fin 2) (_ : Fin 4) => (1 : ℝ)) i) = 0
                  ↔ ((fun (_ : Fin 2) (_ : Fin 4) => (1 : ℝ)) i ⟨0, by omega⟩ = 0
                      ∧ (fun (_ : Fin 2) (_ : Fin 4) => (1 : ℝ)) i ⟨1, by omega⟩ = 0
                      ∧ (fun (_ : Fin 2) (_ : Fin 4) => (1 : ℝ)) i ⟨2, by omega⟩ = 0))
              ∧ (∀ j : Fin 4, 3 ≤ j.val
                  → T i j = (fun (_ : Fin 2) (_ : Fin 4) => (1 : ℝ)) i j) :=
  ⟨by decide, normalise_grad_rows (fun (_ : Fin 2) (_ : Fin 4) => (1 : ℝ)) (by decide)⟩

/-- C10: over the real numbers, for every table with at least 3 columns and every
index vector `dwi` of valid rows with non-zero direction, `gen_direction_matrix`
returns one row per entry of `dwi`, row `i` being computed from table row
`dwi i`: its azimuth is `atan2 (gy, gx)` and, with `z = gz / norm` (the
quotient by a non-zero norm, so that `z * norm = gz`), its elevation is 0 if
`z ≥ 1`, `π` if `z ≤ -1` and `arccos z` otherwise; every elevation lies between
0 and `π`. -/
theorem gen_direction_matrix_rows (atan2 : ℝ → ℝ → ℝ) {m n k : Nat} (h : 3 ≤ n)
    (grad : Fin m → Fin n → ℝ) (dwi : Fin k → Fin m)
    (hnz : ∀ i, head3_norm Real.sqrt h (grad (dwi i)) ≠ 0) :
    ∀ i : Fin k,
      gen_direction_matrix Real.sqrt atan2 Real.arccos Real.pi h grad dwi i 0
          = atan2 (grad (dwi i) ⟨1, by omega⟩) (grad (dwi i) ⟨0, by omega⟩)
      ∧ grad (dwi i) ⟨2, by omega⟩ / head3_norm Real.sqrt h (grad (dwi i))
            * head3_norm Real.sqrt h (grad (dwi i))
          = grad (dwi i) ⟨2, by omega⟩
      ∧ gen_direction_matrix Real.sqrt atan2 Real.arccos Real.pi h grad dwi i 1
          = (if 1 ≤ grad (dwi i) ⟨2, by omega⟩ / head3_norm Real.sqrt h (grad (dwi i)) then 0
             else if grad (dwi i) ⟨2, by omega⟩ / head3_norm Real.sqrt h (grad (dwi i)) ≤ -1
               then Real.pi
             else Real.arccos
               (grad (dwi i) ⟨2, by omega⟩ / head3_norm Real.sqrt h (grad (dwi i))))
      ∧ 0 ≤ gen_direction_matrix Real.sqrt atan2 Real.arccos Real.pi h grad dwi i 1
      ∧ gen_direction_matrix Real.sqrt atan2 Real.arccos Real.pi h grad dwi i 1 ≤ Real.pi := by
  intro i
  have hrow : gen_direction_matrix Real.sqrt atan2 Real.arccos Real.pi h grad dwi i
      = direction_of_row Real.sqrt atan2 Real.arccos Real.pi h (grad (dwi i)) := by
    unfold gen_direction_matrix
    rw [gen_direction_matrix_loop_apply]
    simp [i.isLt]
  rw [hrow]
  refine ⟨?_, div_mul_cancel₀ _ (hnz i), ?_, ?_, ?_⟩
  · simp [direction_of_row]
  · simp [direction_of_row]
  · simp only [direction_of_row]
    split_ifs
    · simp at *
    · exact le_refl _
    · exact Real.pi_pos.le
    · exact Real.arccos_nonneg _
  · simp only [direction_of_row]
    split_ifs
    · simp at *
    · exact Real.pi_pos.le
    · exact le_refl _
    · exact Real.arccos_le_pi _

/-- An instance of `gen_direction_matrix_rows`: a table of 1 row and 4 columns
with every entry equal to 1, and the index vector that selects row 0 twice. -/
theorem gen_direction_matrix_rows_witness :
    (3 ≤ 4)
      ∧ (∀ i : Fin 2, head3_norm Real.sqrt (by decide : 3 ≤ 4)
          ((fun (_ : Fin 1) (_ : Fin 4) => (1 : ℝ)) ((fun (_ : Fin 2) => (0 : Fin 1)) i)) ≠ 0)
      ∧ ∀ i : Fin 2,
          gen_direction_matrix Real.sqrt (fun y x => Complex.arg ⟨x, y⟩) Real.arccos Real.pi
              (by decide : 3 ≤ 4) (fun (_ : Fin 1) (_ : Fin 4) => (1 : ℝ))
              (fun (_ : Fin 2) => (0 : Fin 1)) i 0
            = Complex.arg ⟨1, 1⟩
          ∧ (1 : ℝ) / head3_norm Real.sqrt (by decide : 3 ≤ 4) (fun (_ : Fin 4) => (1 : ℝ))
                * head3_norm Real.sqrt (by decide : 3 ≤ 4) (fun (_ : Fin 4) => (1 : ℝ))
              = 1
          ∧ gen_direction_matrix Real.sqrt (fun y x => Complex.arg ⟨x, y⟩) Real.arccos Real.pi
              (by decide : 3 ≤ 4) (fun (_ : Fin 1) (_ : Fin 4) => (1 : ℝ))
              (fun (_ : Fin 2) => (0 : Fin 1)) i 1
            = (if 1 ≤ (1 : ℝ) / head3_norm Real.sqrt (by decide : 3 ≤ 4)
                    (fun (_ : Fin 4) => (1 : ℝ)) then 0
               else if (1 : ℝ) / head3_norm Real.sqrt (by decide : 3 ≤ 4)
                    (fun (_ : Fin 4) => (1 : ℝ)) ≤ -1 then Real.pi
               else Real.arccos ((1 : ℝ) / head3_norm Real.sqrt (by decide : 3 ≤ 4)
                    (fun (_ : Fin 4) => (1 : ℝ))))
          ∧ 0 ≤ gen_direction_matrix Real.sqrt (fun y x => Complex.arg ⟨x, y⟩) Real.arccos
              Real.pi (by decide : 3 ≤ 4) (fun (_ : Fin 1) (_ : Fin 4) => (1 : ℝ))
              (fun (_ : Fin 2) => (0 : Fin 1)) i 1
          ∧ gen_direction_matrix Real.sqrt (fun y x => Complex.arg ⟨x, y⟩) Real.arccos
              Real.pi (by decide : 3 ≤ 4) (fun (_ : Fin 1) (_ : Fin 4) => (1 : ℝ))
              (fun (_ : Fin 2) => (0 : Fin 1)) i 1 ≤ Real.pi :=
  ⟨by decide,
    fun _ => by unfold head3_norm; norm_num,
    gen_direction_matrix_rows (fun y x => Complex.arg ⟨x, y⟩)
      (by decide : 3 ≤ 4) (fun (_ : Fin 1) (_ : Fin 4) => (1 : ℝ))
      (fun (_ : Fin 2) => (0 : Fin 1)) (fun _ => by unfold head3_norm; norm_num)⟩

/-! ## Theorems on the `-prs` option of `mrconvert` -/

/-- C11: applying the `-prs` flip twice to a table with at least 3 columns returns
the original table; after the first application the first two entries of each
row are swapped and the third is negated, and the second application swaps
them back and negates the third again. -/
theorem prs_flip_involutive {K : Type} [InvolutiveNeg K] {m n : Nat} (h : 3 ≤ n)
    (DW_scheme : Fin m → Fin n → K) :
    prs_flip true h (prs_flip true h DW_scheme) = DW_scheme
      ∧ ∀ i : Fin m,
          prs_flip true h DW_scheme i ⟨0, by omega⟩ = DW_scheme i ⟨1, by omega⟩
          ∧ prs_flip true h DW_scheme i ⟨1, by omega⟩ = DW_scheme i ⟨0, by omega⟩
          ∧ prs_flip true h DW_scheme i ⟨2, by omega⟩ = - DW_scheme i ⟨2, by omega⟩
          ∧ - prs_flip true h DW_scheme i ⟨2, by omega⟩ = DW_scheme i ⟨2, by omega⟩ := by
  constructor
  · rw [prs_flip_set h DW_scheme, prs_flip_set h]
    funext r
    exact prs_flip_row_twice h (DW_scheme r)
  · intro i
    rw [prs_flip_set h DW_scheme]
    simp [prs_flip_row_apply]

/-- An instance of `prs_flip_involutive`: the integer table of 2 rows and 4
columns whose entry in column `j` is `j + 1`. -/
theorem prs_flip_involutive_witness :
    (3 ≤ 4)
      ∧ (prs_flip true (by decide : 3 ≤ 4)
            (prs_flip true (by decide : 3 ≤ 4)
              (fun (_ : Fin 2) (j : Fin 4) => (j.val : Int) + 1))
          = (fun (_ : Fin 2) (j : Fin 4) => (j.val : Int) + 1)
        ∧ ∀ i : Fin 2,
            prs_flip true (by decide : 3 ≤ 4)
                (fun (_ : Fin 2) (j : Fin 4) => (j.val : Int) + 1) i ⟨0, by omega⟩
              = (fun (_ : Fin 2) (j : Fin 4) => (j.val : Int) + 1) i ⟨1, by omega⟩
            ∧ prs_flip true (by decide : 3 ≤ 4)
                (fun (_ : Fin 2) (j : Fin 4) => (j.val : Int) + 1) i ⟨1, by omega⟩
              = (fun (_ : Fin 2) (j : Fin 4) => (j.val : Int) + 1) i ⟨0, by omega⟩
            ∧ prs_flip true (by decide : 3 ≤ 4)
                (fun (_ : Fin 2) (j : Fin 4) => (j.val : Int) + 1) i ⟨2, by omega⟩
              = - (fun (_ : Fin 2) (j : Fin 4) => (j.val : Int) + 1) i ⟨2, by omega⟩
            ∧ - prs_flip true (by decide : 3 ≤ 4)
                (fun (_ : Fin 2) (j : Fin 4) => (j.val : Int) + 1) i ⟨2, by omega⟩
              = (fun (_ : Fin 2) (j : Fin 4) => (j.val : Int) + 1) i ⟨2, by omega⟩) :=
  ⟨by decide,
    prs_flip_involutive (by decide : 3 ≤ 4) (fun (_ : Fin 2) (j : Fin 4) => (j.val : Int) + 1)⟩

/-- C12: with the `-prs` option set, on a table with at least 3 columns every row
`(gx, gy, gz, b, ...)` becomes `(gy, gx, -gz, b, ...)`, whatever its b-value and
direction are: the entries from the fourth column on are unchanged and the
rows keep their number and order; with the option not set the table is
unchanged. -/
theorem prs_flip_rows {K : Type} [Neg K] {m n : Nat} (h : 3 ≤ n)
    (DW_scheme : Fin m → Fin n → K) :
    (∀ (i : Fin m) (j : Fin n),
        prs_flip true h DW_scheme i j
          = if j.val = 0 then DW_scheme i ⟨1, by omega⟩
            else if j.val = 1 then DW_scheme i ⟨0, by omega⟩
            else if j.val = 2 then - DW_scheme i ⟨2, by omega⟩
            else DW_scheme i j)
      ∧ prs_flip false h DW_scheme = DW_scheme := by
  constructor
  · intro i j
    rw [prs_flip_set h DW_scheme]
    exact prs_flip_row_apply h (DW_scheme i) j
  · unfold prs_flip
    simp

/-- An instance of `prs_flip_rows`: the integer table of 2 rows and 4 columns
whose entry in column `j` is `j + 1`. -/
theorem prs_flip_rows_witness :
    (3 ≤ 4)
      ∧ ((∀ (i : Fin 2) (j : Fin 4),
            prs_flip true (by decide : 3 ≤ 4)
                (fun (_ : Fin 2) (j : Fin 4) => (j.val : Int) + 1) i j
              = if j.val = 0 then
                  (fun (_ : Fin 2) (j : Fin 4) => (j.val : Int) + 1) i ⟨1, by omega⟩
                else if j.val = 1 then
                  (fun (_ : Fin 2) (j : Fin 4) => (j.val : Int) + 1) i ⟨0, by omega⟩
                else if j.val = 2 then
                  - (fun (_ : Fin 2) (j : Fin 4) => (j.val : Int) + 1) i ⟨2, by omega⟩
                else (fun (_ : Fin 2) (j : Fin 4) => (j.val : Int) + 1) i j)
        ∧ prs_flip false (by decide : 3 ≤ 4)
              (fun (_ : Fin 2) (j : Fin 4) => (j.val : Int) + 1)
            = (fun (_ : Fin 2) (j : Fin 4) => (j.val : Int) + 1)) :=
  ⟨by decide,
    prs_flip_rows (by decide : 3 ≤ 4) (fun (_ : Fin 2) (j : Fin 4) => (j.val : Int) + 1)⟩

/-! ## Theorems on the iterations of the order search -/

/-- C13 (as stated, refuted): started at order 0 the loop builds one mapping, and
started at order 8 with every condition ratio equal to 1000 it builds the
five mappings of orders 8, 6, 4, 2 and 0; both counts exceed half the
starting order. -/
theorem order_search_builds_more_than_half :
    (order_search id (fun _ => (1 : ℚ)) false 0 [] []).built = [0]
      ∧ ¬ (([0] : List Int).length : Int) ≤ 0 / 2
      ∧ (order_search id (fun _ => (1000 : ℚ)) false 8 [] []).built = [8, 6, 4, 2, 0]
      ∧ ¬ (([8, 6, 4, 2, 0] : List Int).length : Int) ≤ 8 / 2 := by
  refine ⟨?_, by decide, ?_, by decide⟩
  · rw [order_search_lt_10 id (fun _ => (1 : ℚ)) false 0 [] [] (by norm_num)]
    rfl
  · rw [order_search_reduce id (fun _ => (1000 : ℚ)) _ _ _ (by norm_num) (by norm_num),
      order_search_reduce id (fun _ => (1000 : ℚ)) _ _ _ (by norm_num) (by norm_num),
      order_search_reduce id (fun _ => (1000 : ℚ)) _ _ _ (by norm_num) (by norm_num),
      order_search_reduce id (fun _ => (1000 : ℚ)) _ _ _ (by norm_num) (by norm_num),
      order_search_floor id (fun _ => (1000 : ℚ)) _ _ _ (by norm_num) (by norm_num)]
    norm_num

/-- C13 (amended): for every starting order `s ≥ 0`, either value of the
command-line flag and every assignment of condition ratios to orders, the
loop returns after building the orders `s, s - 2, ..., s - 2 * n` for some
`n ≤ s / 2`: it makes at most `s / 2 + 1` iterations. -/
theorem order_search_iterations {μ : Type} (init_transform : Int → μ) (ratio : μ → ℚ)
    (b : Bool) (s : Int) (warnings : List Warning) (hs : 0 ≤ s) :
    ∃ n : Nat,
      (order_search init_transform ratio b s [] warnings).built = orders_from s (n + 1)
      ∧ (n : Int) ≤ s / 2
      ∧ (((order_search init_transform ratio b s [] warnings).built.length : Nat) : Int)
          ≤ s / 2 + 1 := by
  cases b with
  | true =>
    refine ⟨0, ?_, ?_, ?_⟩
    · rw [order_search_fixed]; simp [orders_from]
    · simp only [Nat.cast_zero]; omega
    · rw [order_search_fixed]
      simp only [List.nil_append, List.length_singleton, Nat.cast_one]
      omega
  | false =>
    obtain ⟨n, hn0, _, hbuilt, _, _, _⟩ :=
      order_search_spec init_transform ratio s [] warnings
    have hn : (n : Int) ≤ s / 2 := by
      rcases hn0 with h | h
      · subst h
        simp only [Nat.cast_zero]
        omega
      · omega
    refine ⟨n, by rw [hbuilt, List.nil_append], hn, ?_⟩
    rw [hbuilt, List.nil_append, orders_from_length]
    push_cast
    omega

/-- An instance of `order_search_iterations`: starting order 8 without the
command-line flag and every condition ratio equal to 1000. -/
theorem order_search_iterations_witness :
    ((0 : Int) ≤ 8)
      ∧ ∃ n : Nat,
          (order_search id (fun _ => (1000 : ℚ)) false 8 [] []).built = orders_from 8 (n + 1)
          ∧ (n : Int) ≤ 8 / 2
          ∧ (((order_search id (fun _ => (1000 : ℚ)) false 8 [] []).built.length : Nat) : Int)
              ≤ 8 / 2 + 1 :=
  ⟨by decide, order_search_iterations id (fun _ => (1000 : ℚ)) false 8 [] (by decide)⟩

end DWI
end MR
